import Mathlib

/-!
Shallow embedding of the Legal-Document-AI-Assistant extraction pipeline
(`knowledge-graph.py`, `app.py`).

Python values that flow through the pipeline (JSON-decoded data, record
dictionaries, `None`) are modelled by `PyVal`.  Python dictionaries are
modelled as insertion-ordered association lists with CPython's semantics
(assignment replaces in place, `in` tests key membership, `.get` defaults
to `None`).  Exceptions are modelled by `Option`/`Except` results.
Machine floats never carry program logic here: JSON numbers are kept as
their lexemes, which is faithful for every operation the pipeline applies
to them (dictionary plumbing and truthiness tests).
-/

namespace LegalDoc

/-- A Python value as it appears in this pipeline: `None`, booleans,
numbers (kept as their JSON lexeme; the pipeline only stores them or
tests truthiness), strings, lists and (insertion-ordered) dicts. -/
inductive PyVal where
  | none
  | bool (b : Bool)
  | num (lexeme : String)
  | str (s : String)
  | list (xs : List PyVal)
  | dict (kvs : List (String × PyVal))

/-- A Python dictionary with string keys, as an insertion-ordered
association list (CPython's observable dict behaviour). -/
abbrev Dict := List (String × PyVal)

/-- Python `d[k]` / `d.get(k)` with default `None` (the two coincide whenever the
key is present, which is how the source uses indexing). -/
def dictGet (d : Dict) (k : String) : PyVal :=
  match d with
  | [] => PyVal.none
  | (k', v) :: rest => if k' = k then v else dictGet rest k

/-- Python `k in d`. -/
def dictMem (d : Dict) (k : String) : Bool :=
  match d with
  | [] => false
  | (k', _) :: rest => if k' = k then true else dictMem rest k

/-- Python `d[k] = v`: replaces in place when the key exists (keeping its
position), appends otherwise — CPython dict assignment. -/
def dictSet (d : Dict) (k : String) (v : PyVal) : Dict :=
  match d with
  | [] => [(k, v)]
  | (k', v') :: rest => if k' = k then (k', v) :: rest else (k', v') :: dictSet rest k v

/-- Python truthiness (`bool(x)`) for the values above.  A number is
truthy iff its value is nonzero, i.e. iff its lexeme has a nonzero digit
in the mantissa (the part before any exponent marker). -/
def truthy : PyVal → Bool
  | PyVal.none => false
  | PyVal.bool b => b
  | PyVal.num lex =>
      (lex.toList.takeWhile (fun c => c ≠ 'e' ∧ c ≠ 'E')).any (fun c => '1' ≤ c && c ≤ '9')
  | PyVal.str s => !s.isEmpty
  | PyVal.list xs => !xs.isEmpty
  | PyVal.dict kvs => !kvs.isEmpty

/-- Is this value Python `None`? -/
def isNone : PyVal → Bool
  | PyVal.none => true
  | _ => false

/-- Is this value a Python string? -/
def isStr : PyVal → Bool
  | PyVal.str _ => true
  | _ => false

/-! ### Digits -/

/-- ASCII decimal digit (the `\d` of CPython's `_strptime` regexes,
restricted to ASCII in this model). -/
def isDig (c : Char) : Bool := 48 ≤ c.toNat && c.toNat ≤ 57

/-- Numeric value of a digit character. -/
def digVal (c : Char) : Nat := c.toNat - 48

/-- The digit character for `k ≤ 9`. -/
def digChr (k : Nat) : Char := Char.ofNat (48 + k)

/-! ### `datetime.strptime(s, "%Y-%m-%d")` (knowledge-graph.py line 108)

CPython's `_strptime` compiles `"%Y-%m-%d"` to the regex
`(?P<Y>\d\d\d\d)\-(?P<m>1[0-2]|0[1-9]|[1-9])\-(?P<d>3[01]|[12]\d|0[1-9]|[1-9])`,
matches it against a prefix of the input, raises `ValueError` when the
match fails or leaves unconverted trailing data, and finally constructs
`datetime(year, month, day)`, which raises unless `MINYEAR ≤ year` and
`day` fits the month.  Note `%m`/`%d` also accept a single non-padded
digit.  The alternations are deterministic here because a shorter
alternative can never rescue a failed longer one (the following literal
is `-` or end, never a digit in `0..2`/a digit). -/

/-- Year directive `%Y`: exactly four digits. -/
def read4 : List Char → Option (Nat × List Char)
  | c1 :: c2 :: c3 :: c4 :: rest =>
    if isDig c1 && isDig c2 && isDig c3 && isDig c4 then
      some (1000 * digVal c1 + 100 * digVal c2 + 10 * digVal c3 + digVal c4, rest)
    else Option.none
  | _ => Option.none

/-- Month directive `%m`: regex `1[0-2]|0[1-9]|[1-9]`, alternatives tried in order. -/
def readMonth : List Char → Option (Nat × List Char)
  | c1 :: c2 :: rest =>
    if c1 = '1' && '0' ≤ c2 && c2 ≤ '2' then some (10 + digVal c2, rest)
    else if c1 = '0' && '1' ≤ c2 && c2 ≤ '9' then some (digVal c2, rest)
    else if '1' ≤ c1 && c1 ≤ '9' then some (digVal c1, c2 :: rest)
    else Option.none
  | [c1] => if '1' ≤ c1 && c1 ≤ '9' then some (digVal c1, []) else Option.none
  | [] => Option.none

/-- Day directive `%d`: regex `3[01]|[12]\d|0[1-9]|[1-9]`, alternatives tried in order. -/
def readDay : List Char → Option (Nat × List Char)
  | c1 :: c2 :: rest =>
    if c1 = '3' && '0' ≤ c2 && c2 ≤ '1' then some (30 + digVal c2, rest)
    else if ('1' ≤ c1 && c1 ≤ '2') && isDig c2 then some (10 * digVal c1 + digVal c2, rest)
    else if c1 = '0' && '1' ≤ c2 && c2 ≤ '9' then some (digVal c2, rest)
    else if '1' ≤ c1 && c1 ≤ '9' then some (digVal c1, c2 :: rest)
    else Option.none
  | [c1] => if '1' ≤ c1 && c1 ≤ '9' then some (digVal c1, []) else Option.none
  | [] => Option.none

/-- The literal `-` of the format string. -/
def expectDash : List Char → Option (List Char)
  | c :: r => if c = '-' then some r else Option.none
  | [] => Option.none

/-- The `%Y-%m-%d` regex match, with the trailing "unconverted data
remains" check: the whole input must be consumed. -/
def parseYmd (cs : List Char) : Option (Nat × Nat × Nat) :=
  match read4 cs with
  | some (y, r1) =>
    match expectDash r1 with
    | some r2 =>
      match readMonth r2 with
      | some (m, r3) =>
        match expectDash r3 with
        | some r4 =>
          match readDay r4 with
          | some (d, []) => some (y, m, d)
          | _ => Option.none
        | Option.none => Option.none
      | Option.none => Option.none
    | Option.none => Option.none
  | Option.none => Option.none

/-- Gregorian leap year, as `datetime`/`calendar` define it. -/
def isLeapYear (y : Nat) : Bool := (y % 4 = 0 && y % 100 ≠ 0) || y % 400 = 0

/-- Days in a month of the proleptic Gregorian calendar. -/
def daysInMonth (y m : Nat) : Nat :=
  if m = 2 then (if isLeapYear y then 29 else 28)
  else if m = 4 || m = 6 || m = 9 || m = 11 then 30
  else 31

/-- Model of `datetime.strptime(s, "%Y-%m-%d")`: the regex match followed by the
`datetime(year, month, day)` constructor checks (`year ≥ MINYEAR = 1`,
day within the month; `year ≤ 9999` holds already since `%Y` reads four
digits). -/
def strptime_Ymd (cs : List Char) : Option (Nat × Nat × Nat) :=
  match parseYmd cs with
  | some (y, m, d) => if 1 ≤ y ∧ d ≤ daysInMonth y m then some (y, m, d) else Option.none
  | Option.none => Option.none

/-- Function `is_valid_date` (knowledge-graph.py lines 106–111): tries
`datetime.strptime(date_string, "%Y-%m-%d")` under a bare `except:`
that swallows every exception — including the `TypeError` raised when
the argument is not a string — and returns `False` for it. -/
def is_valid_date (date_string : PyVal) : Bool :=
  match date_string with
  | PyVal.str s => (strptime_Ymd s.toList).isSome
  | _ => false

/-! ### `isodate.parse_duration` and `add_duration_to_date`
(knowledge-graph.py lines 113–117)

`isodate` matches the anchored regex
`^P(?!\b)(nY)?(nM)?(nW)?(nD)?(T(nH)?(nM)?(nS)?)?$` and raises
`ISO8601Error` when it fails; adding the result to a midnight
`datetime` applies years/months with a carry and a clamp of the day to
the target month's length, then adds the week/day/time components as a
`timedelta` (whole days shift the date; a sub-day remainder is dropped
by `strftime("%Y-%m-%d")`).  `datetime.replace`/`+` raise when the year
leaves `1..9999`.  The model covers unsigned integer components (no
claim exercises the optional global sign or decimal fractions). -/

structure IsoDur where
  years : Nat
  months : Nat
  weeks : Nat
  days : Nat
  hours : Nat
  minutes : Nat
  seconds : Nat

/-- Accumulate a run of leading digits. -/
def readNatAux : List Char → Nat → Nat × List Char
  | c :: rest, acc => if isDig c then readNatAux rest (10 * acc + digVal c) else (acc, c :: rest)
  | [], acc => (acc, [])

/-- One or more leading digits. -/
def readNat (cs : List Char) : Option (Nat × List Char) :=
  match cs with
  | c :: rest => if isDig c then some (readNatAux rest (digVal c)) else Option.none
  | [] => Option.none

/-- One optional duration component `<digits><desig>`; when the digits
are not followed by this very designator the component is absent and
nothing is consumed (the regex's `(n<desig>)?` group). -/
def readComp (desig : Char) (cs : List Char) : Nat × List Char :=
  match readNat cs with
  | some (n, d :: rest) => if d = desig then (n, rest) else (0, cs)
  | _ => (0, cs)

/-- Model of `isodate.parse_duration` on the characters of the input (an absent
component counts as 0; `"P"` alone fails the regex's `(?!\b)`
lookahead; any unconsumed trailing character fails the `$` anchor). -/
def parse_duration_chars (cs : List Char) : Option IsoDur :=
  match cs with
  | 'P' :: c :: rest0 =>
    let p1 := readComp 'Y' (c :: rest0)
    let p2 := readComp 'M' p1.2
    let p3 := readComp 'W' p2.2
    let p4 := readComp 'D' p3.2
    match p4.2 with
    | 'T' :: r5 =>
      let p5 := readComp 'H' r5
      let p6 := readComp 'M' p5.2
      let p7 := readComp 'S' p6.2
      if p7.2.isEmpty then some ⟨p1.1, p2.1, p3.1, p4.1, p5.1, p6.1, p7.1⟩ else Option.none
    | [] => some ⟨p1.1, p2.1, p3.1, p4.1, 0, 0, 0⟩
    | _ => Option.none
  | _ => Option.none

/-- Years/months part of `isodate`'s `Duration.__radd__`: carry the
months into the year, clamp the day to the target month's length. -/
def addYearsMonths (y m d years months : Nat) : Nat × Nat × Nat :=
  let t := (m - 1) + months
  let y2 := y + years + t / 12
  let m2 := t % 12 + 1
  (y2, m2, min d (daysInMonth y2 m2))

/-- The calendar successor of a day. -/
def nextDay (y m d : Nat) : Nat × Nat × Nat :=
  if d + 1 ≤ daysInMonth y m then (y, m, d + 1)
  else if m + 1 ≤ 12 then (y, m + 1, 1)
  else (y + 1, 1, 1)

/-- Add `n` days to a date (the `timedelta` part of the addition). -/
def addDays (y m d : Nat) : Nat → Nat × Nat × Nat
  | 0 => (y, m, d)
  | n + 1 => addDays (nextDay y m d).1 (nextDay y m d).2.1 (nextDay y m d).2.2 n

/-- Whole days contributed by the week/day/time components of a
duration when added to a midnight `datetime`. -/
def durationDays (du : IsoDur) : Nat :=
  du.weeks * 7 + du.days + (du.hours * 3600 + du.minutes * 60 + du.seconds) / 86400

/-- The four decimal digits of `n < 10000`, zero-padded. -/
def pad4 (n : Nat) : List Char :=
  [digChr (n / 1000 % 10), digChr (n / 100 % 10), digChr (n / 10 % 10), digChr (n % 10)]

/-- The two decimal digits of `n < 100`, zero-padded. -/
def pad2 (n : Nat) : List Char := [digChr (n / 10 % 10), digChr (n % 10)]

/-- Model of `strftime("%Y-%m-%d")`: zero-padded 4-digit year and 2-digit
month/day (the paddings documented for `datetime.strftime`). -/
def strftime_Ymd (y m d : Nat) : String :=
  String.mk (pad4 y ++ '-' :: pad2 m ++ '-' :: pad2 d)

/-- Function `add_duration_to_date` (knowledge-graph.py lines 113–117):
`strptime` the date, `parse_duration` the duration, add, format.  Any
exception on the way — non-string arguments included — is modelled by
`Option.none` and is caught by this function's caller. -/
def add_duration_to_date (date_str duration_str : PyVal) : Option String :=
  match date_str, duration_str with
  | PyVal.str ds, PyVal.str dus =>
    match strptime_Ymd ds.toList with
    | some (y, m, d) =>
      match parse_duration_chars dus.toList with
      | some du =>
        let r2 := addYearsMonths y m d du.years du.months
        let r3 := addDays r2.1 r2.2.1 r2.2.2 (durationDays du)
        if 1 ≤ r3.1 ∧ r3.1 ≤ 9999 then some (strftime_Ymd r3.1 r3.2.1 r3.2.2) else Option.none
      | Option.none => Option.none
    | Option.none => Option.none
  | _, _ => Option.none

/-! ### `json.loads` (as used on knowledge-graph.py line 168)

A strict-mode JSON reader over characters: objects, arrays, strings
with escapes, numbers (kept as lexemes), `true`/`false`/`null`, plus
the `NaN`/`Infinity`/`-Infinity` constants CPython's decoder accepts.
Duplicate object keys follow CPython: the later value wins while the
key keeps its first position.  `\uXXXX` escapes map through
`Char.ofNat` (surrogate pairing is not modelled; no claim exercises
it).  Recursion is fuelled; `json_loads_chars` supplies ample fuel. -/

/-- JSON whitespace. -/
def isJsonWs (c : Char) : Bool := c = ' ' || c = '\t' || c = '\n' || c = '\r'

/-- Drop leading JSON whitespace. -/
def skipWs : List Char → List Char
  | c :: rest => if isJsonWs c then skipWs rest else c :: rest
  | [] => []

/-- Hex digit value. -/
def hexVal (c : Char) : Option Nat :=
  if isDig c then some (digVal c)
  else if 'a' ≤ c ∧ c ≤ 'f' then some (c.toNat - 87)
  else if 'A' ≤ c ∧ c ≤ 'F' then some (c.toNat - 55)
  else Option.none

/-- JSON string body after the opening quote: ends at `"`, understands
the standard escapes, rejects raw control characters (strict mode). -/
def parseStringBody : Nat → List Char → List Char → Option (String × List Char)
  | 0, _, _ => Option.none
  | _ + 1, [], _ => Option.none
  | f + 1, c :: rest, acc =>
    if c = '"' then some (String.mk acc.reverse, rest)
    else if c = '\\' then
      match rest with
      | [] => Option.none
      | e :: rest2 =>
        if e = '"' then parseStringBody f rest2 ('"' :: acc)
        else if e = '\\' then parseStringBody f rest2 ('\\' :: acc)
        else if e = '/' then parseStringBody f rest2 ('/' :: acc)
        else if e = 'b' then parseStringBody f rest2 (Char.ofNat 8 :: acc)
        else if e = 'f' then parseStringBody f rest2 (Char.ofNat 12 :: acc)
        else if e = 'n' then parseStringBody f rest2 ('\n' :: acc)
        else if e = 'r' then parseStringBody f rest2 ('\r' :: acc)
        else if e = 't' then parseStringBody f rest2 ('\t' :: acc)
        else if e = 'u' then
          match rest2 with
          | h1 :: h2 :: h3 :: h4 :: rest3 =>
            match hexVal h1, hexVal h2, hexVal h3, hexVal h4 with
            | some a, some b, some c', some d =>
              parseStringBody f rest3 (Char.ofNat (4096 * a + 256 * b + 16 * c' + d) :: acc)
            | _, _, _, _ => Option.none
          | _ => Option.none
        else Option.none
    else if c.toNat < 32 then Option.none
    else parseStringBody f rest (c :: acc)

/-- Greedy run of decimal digits. -/
def spanDigits : List Char → List Char × List Char
  | c :: rest =>
    if isDig c then
      match spanDigits rest with
      | (ds, r) => (c :: ds, r)
    else ([], c :: rest)
  | [] => ([], [])

/-- Optional JSON fraction `.digits+` (not consumed when incomplete,
like the regex group `(\.\d+)?`). -/
def parseFrac (cs : List Char) : List Char × List Char :=
  match cs with
  | '.' :: r =>
    match spanDigits r with
    | (d :: ds, rest) => ('.' :: d :: ds, rest)
    | ([], _) => ([], cs)
  | _ => ([], cs)

/-- Optional JSON exponent `[eE][+-]?digits+` (not consumed when
incomplete). -/
def parseExp (cs : List Char) : List Char × List Char :=
  match cs with
  | e :: r =>
    if e = 'e' ∨ e = 'E' then
      match r with
      | s :: r2 =>
        if s = '+' ∨ s = '-' then
          match spanDigits r2 with
          | (d :: ds, rest) => (e :: s :: d :: ds, rest)
          | ([], _) => ([], cs)
        else
          match spanDigits r with
          | (d :: ds, rest) => (e :: d :: ds, rest)
          | ([], _) => ([], cs)
      | [] => ([], cs)
    else ([], cs)
  | [] => ([], cs)

/-- JSON number (CPython's `NUMBER_RE`: `-?(0|[1-9]\d*)(\.\d+)?([eE][-+]?\d+)?`)
or one of the decoder's float constants; the lexeme is returned. -/
def parseNumber (cs : List Char) : Option (String × List Char) :=
  match cs with
  | 'N' :: 'a' :: 'N' :: rest => some ("NaN", rest)
  | 'I' :: 'n' :: 'f' :: 'i' :: 'n' :: 'i' :: 't' :: 'y' :: rest => some ("Infinity", rest)
  | '-' :: 'I' :: 'n' :: 'f' :: 'i' :: 'n' :: 'i' :: 't' :: 'y' :: rest => some ("-Infinity", rest)
  | _ =>
    let sgn := match cs with | '-' :: r => (['-'], r) | _ => (([] : List Char), cs)
    match sgn.2 with
    | '0' :: r1 =>
      let fr := parseFrac r1
      let ex := parseExp fr.2
      some (String.mk (sgn.1 ++ '0' :: (fr.1 ++ ex.1)), ex.2)
    | c :: r1 =>
      if '1' ≤ c ∧ c ≤ '9' then
        let ds := spanDigits r1
        let fr := parseFrac ds.2
        let ex := parseExp fr.2
        some (String.mk (sgn.1 ++ c :: (ds.1 ++ fr.1 ++ ex.1)), ex.2)
      else Option.none
    | [] => Option.none

mutual

/-- One JSON value (leading whitespace allowed). -/
def parseVal : Nat → List Char → Option (PyVal × List Char)
  | 0, _ => Option.none
  | f + 1, cs =>
    match skipWs cs with
    | [] => Option.none
    | c :: rest =>
      if c = '{' then
        match parseObjBody f (skipWs rest) [] true with
        | some (kvs, r) => some (PyVal.dict kvs, r)
        | Option.none => Option.none
      else if c = '[' then
        match parseArrBody f (skipWs rest) [] true with
        | some (xs, r) => some (PyVal.list xs, r)
        | Option.none => Option.none
      else if c = '"' then
        match parseStringBody f rest [] with
        | some (s, r) => some (PyVal.str s, r)
        | Option.none => Option.none
      else
        match c :: rest with
        | 't' :: 'r' :: 'u' :: 'e' :: r => some (PyVal.bool true, r)
        | 'f' :: 'a' :: 'l' :: 's' :: 'e' :: r => some (PyVal.bool false, r)
        | 'n' :: 'u' :: 'l' :: 'l' :: r => some (PyVal.none, r)
        | cs' =>
          match parseNumber cs' with
          | some (lex, r) => some (PyVal.num lex, r)
          | Option.none => Option.none

/-- Object members after `{` (whitespace already skipped).  `first` is
true before any member has been read.  Later duplicates of a key
overwrite its value in place, as CPython's `dict` does. -/
def parseObjBody : Nat → List Char → List (String × PyVal) → Bool → Option (List (String × PyVal) × List Char)
  | 0, _, _, _ => Option.none
  | f + 1, cs, acc, first =>
    match cs with
    | '}' :: r => if first then some (acc, r) else Option.none
    | '"' :: r =>
      match parseStringBody f r [] with
      | some (k, r2) =>
        match skipWs r2 with
        | ':' :: r3 =>
          match parseVal f r3 with
          | some (v, r4) =>
            match skipWs r4 with
            | ',' :: r5 => parseObjBody f (skipWs r5) (dictSet acc k v) false
            | '}' :: r5 => some (dictSet acc k v, r5)
            | _ => Option.none
          | Option.none => Option.none
        | _ => Option.none
      | Option.none => Option.none
    | _ => Option.none

/-- Array elements after `[` (whitespace already skipped). -/
def parseArrBody : Nat → List Char → List PyVal → Bool → Option (List PyVal × List Char)
  | 0, _, _, _ => Option.none
  | f + 1, cs, acc, first =>
    match cs with
    | ']' :: r => if first then some (acc.reverse, r) else Option.none
    | _ =>
      match parseVal f cs with
      | some (v, r) =>
        match skipWs r with
        | ',' :: r2 => parseArrBody f r2 (v :: acc) false
        | ']' :: r2 => some ((v :: acc).reverse, r2)
        | _ => Option.none
      | Option.none => Option.none

end

/-- Model of `json.loads` on a character list: one value, then only whitespace
may remain. -/
def json_loads_chars (cs : List Char) : Option PyVal :=
  match parseVal (cs.length + 1) cs with
  | some (v, rest) => if (skipWs rest).isEmpty then some v else Option.none
  | Option.none => Option.none

/-! ### `extract_contract_structured` (knowledge-graph.py lines 142–172) -/

/-- Python `str.find(ch)`: index of the first occurrence, `-1` when absent. -/
def pyFindAux : List Char → Char → Nat → Int
  | [], _, _ => -1
  | c :: rest, t, i => if c = t then (i : Int) else pyFindAux rest t (i + 1)

/-- Python `response.find(ch)`. -/
def pyFind (s : String) (t : Char) : Int := pyFindAux s.toList t 0

/-- Python `str.rfind(ch)`: index of the last occurrence, `-1` when absent. -/
def pyRfindAux : List Char → Char → Nat → Int → Int
  | [], _, _, best => best
  | c :: rest, t, i, best => pyRfindAux rest t (i + 1) (if c = t then (i : Int) else best)

/-- Python `response.rfind(ch)`. -/
def pyRfind (s : String) (t : Char) : Int := pyRfindAux s.toList t 0 (-1)

/-- Python `s[a:b]` for the non-negative indices this pipeline produces
(`a = s.find('{') ≥ 0` on the branch that slices, `b = s.rfind('}')+1 ≥ 0`). -/
def pySlice (s : String) (a b : Int) : String :=
  String.mk ((s.toList.drop a.toNat).take (b.toNat - a.toNat))

/-- The `try:` block of `extract_contract_structured` applied to the
model's reply (lines 163–172): slice from the first `{` to the last
`}`, `json.loads` the slice; on any failure return the tagged
diagnostic dict carrying the raw reply.  (The interpolated exception
text of line 172 is abbreviated to a fixed message; no claim depends
on the message's wording.) -/
def parse_model_reply (response : String) : PyVal :=
  let json_start := pyFind response '{'
  let json_end := pyRfind response '}' + 1
  if json_start ≠ -1 ∧ json_end ≠ -1 then
    match json_loads_chars (pySlice response json_start json_end).toList with
    | some v => v
    | Option.none =>
        PyVal.dict [("error", PyVal.str "Failed to parse JSON"), ("raw", PyVal.str response)]
  else PyVal.dict [("error", PyVal.str "No JSON found in response"), ("raw", PyVal.str response)]

/-- A Python exception escaping the pipeline: an HTTP-layer failure
raised by `call_gemma` (line 128 / `requests`), or a `TypeError` from
item assignment on a non-dict. -/
inductive PyErr where
  | transport
  | typeError

/-- The language-model collaborator: `call_gemma` as a black-box
prompt→reply function that may raise at the HTTP layer. -/
def Oracle : Type := String → Except PyErr String

/-- The extraction prompt of lines 144–161 as a function of the
contract text (the fixed schema template is abbreviated; every claim
depends only on the reply the oracle returns for it). -/
def promptFor (text : String) : String :=
  "Extract the following structured information from this contract. " ++
    "Return your answer as a JSON object with these fields: ...\n\nContract text:\n" ++
    text ++ "\n\nReturn only the JSON object, no explanation.\n"

/-- Function `extract_contract_structured` (lines 142–172): call the model —
line 162 sits outside the `try:`, so a transport error propagates —
then parse the reply. -/
def extract_contract_structured (g : Oracle) (text : String) : Except PyErr PyVal :=
  match g (promptFor text) with
  | Except.error e => Except.error e
  | Except.ok response => Except.ok (parse_model_reply response)

/-- One input item: `{"file_id": ..., "text": ...}` from
`read_txt_files`. -/
structure ContractIn where
  file_id : String
  text : String

/-- Lines 179–182, one date field: when the key is present, keep the
value if `is_valid_date` accepts it, else overwrite it with `None`. -/
def clean_field (d : Dict) (k : String) : Dict :=
  if dictMem d k then
    dictSet d k (if is_valid_date (dictGet d k) then dictGet d k else PyVal.none)
  else d

/-- Lines 184–188: when `end_date` is falsy and `effective_date` and
`duration` are truthy, try `add_duration_to_date`; its exceptions are
swallowed by the bare `except: pass`. -/
def infer_step (d : Dict) : Dict :=
  if !truthy (dictGet d "end_date") && truthy (dictGet d "effective_date")
      && truthy (dictGet d "duration") then
    match add_duration_to_date (dictGet d "effective_date") (dictGet d "duration") with
    | some s => dictSet d "end_date" (PyVal.str s)
    | Option.none => d
  else d

/-- The date-normalization tail of `process_contract` (lines 179–188),
applied to the record after `file_id` is attached. -/
def clean_and_infer (d : Dict) : Dict :=
  infer_step (clean_field (clean_field d "effective_date") "end_date")

/-- The body of `process_contract` (lines 176–189), inside the
semaphore block: extract, attach `file_id`, clean dates, infer the end
date.  Item assignment on a non-dict would raise `TypeError` — a path
`parse_model_reply` never produces, see `parse_model_reply_cases`. -/
def process_contract_body (g : Oracle) (c : ContractIn) : Except PyErr Dict :=
  match extract_contract_structured g c.text with
  | Except.error e => Except.error e
  | Except.ok (PyVal.dict kvs) =>
      Except.ok (clean_and_infer (dictSet kvs "file_id" (PyVal.str c.file_id)))
  | Except.ok _ => Except.error PyErr.typeError

/-- Function `process_contract` (lines 174–189): `with semaphore:` acquires a
permit — blocking forever when none is free, modelled `Option.none` —
runs the body, and releases the permit on exit even when the body
raises, so the permit count is restored either way. -/
def process_contract (g : Oracle) (c : ContractIn) (sem : Nat) : Option (Except PyErr Dict × Nat) :=
  if sem = 0 then Option.none
  else some (process_contract_body g c, sem)

/-- The `for` loop of `process_all` (lines 194–196): strictly
sequential; an exception escaping `process_contract` aborts the loop
and propagates. -/
def process_all_loop (g : Oracle) : List ContractIn → Nat → List Dict → Option (Except PyErr (List Dict))
  | [], _, acc => some (Except.ok acc.reverse)
  | c :: rest, sem, acc =>
    match process_contract g c sem with
    | Option.none => Option.none
    | some (Except.error e, _) => some (Except.error e)
    | some (Except.ok r, sem') => process_all_loop g rest sem' (r :: acc)

/-- Function `process_all` (lines 191–197): `Semaphore(max_workers)` then the
sequential loop.  The outer `Option` is the blocking behaviour
(`Option.none` = the loop never returns), the inner `Except` an
exception propagating out of the call. -/
def process_all (g : Oracle) (contracts : List ContractIn) (max_workers : Nat) : Option (Except PyErr (List Dict)) :=
  process_all_loop g contracts max_workers []

/-! ### `find_most_relevant_contract` (SimilaritySearch) -/

/-- Retrieval against an empty index is a hard error (spec §7). -/
inductive RetrievalErr where
  | emptyIndex

/-- Fold keeping the earliest candidate on ties (strict `>` to move). -/
def bestFold (sim : List ℚ → List ℚ → ℚ) (q : List ℚ) :
    String × ℚ → List (String × List ℚ) → String × ℚ
  | best, [] => best
  | best, (cid, v) :: rest =>
    if sim q v > best.2 then bestFold sim q (cid, sim q v) rest else bestFold sim q best rest

/-- Modelled from the spec: `find_most_relevant_contract` is imported
by `app.py` from the `knowledge_graph` module but its definition is
not among the provided sources; §4.5 of the spec specifies
`best_match(queryVector, candidates)`: return the candidate with the
maximal similarity score, earliest-inserted candidate on ties, and fail
with an EmptyIndex condition on an empty candidate set.  The
similarity metric (cosine) is passed as a parameter `sim`; the claim
settled against this model concerns only the empty-candidate case. -/
def find_most_relevant_contract (sim : List ℚ → List ℚ → ℚ) (queryVec : List ℚ)
    (candidates : List (String × List ℚ)) : Except RetrievalErr (String × ℚ) :=
  match candidates with
  | [] => Except.error RetrievalErr.emptyIndex
  | (cid, v) :: rest => Except.ok (bestFold sim queryVec (cid, sim queryVec v) rest)

/-! ### Auxiliary definitions used by the claim statements -/

/-- The record after the date-coercion lines 179–182 and before the
inference lines 184–188. -/
def cleaned (d : Dict) : Dict := clean_field (clean_field d "effective_date") "end_date"

/-- The spec's stated firing condition for end-date inference, read on
the coerced record: end_date absent, effective_date present and valid,
duration present (not `None`). -/
def infer_condition (c : Dict) : Bool :=
  isNone (dictGet c "end_date") && is_valid_date (dictGet c "effective_date")
    && !isNone (dictGet c "duration")

/-- What inference would assign: the sum date on success, the existing
(absent) end_date when the addition fails. -/
def inferred_end (c : Dict) : PyVal :=
  match add_duration_to_date (dictGet c "effective_date") (dictGet c "duration") with
  | some s => PyVal.str s
  | Option.none => dictGet c "end_date"

/-- The spec's words for the fixed `YYYY-MM-DD` format: four decimal
digits, dash, two decimal digits, dash, two decimal digits, denoting a
valid calendar date (zero-padded, as ISO 8601 fixes it). -/
def isStrictYmdDate (s : String) : Bool :=
  match s.toList with
  | [a, b, c, d, '-', e, f, '-', g, h] =>
    isDig a && isDig b && isDig c && isDig d && isDig e && isDig f && isDig g && isDig h &&
      (let y := 1000 * digVal a + 100 * digVal b + 10 * digVal c + digVal d
       let m := 10 * digVal e + digVal f
       let dy := 10 * digVal g + digVal h
       (1 ≤ y : Bool) && 1 ≤ m && m ≤ 12 && 1 ≤ dy && dy ≤ daysInMonth y m)
  | _ => false

/-- Did `process_all` return a list of results (rather than block or
raise)? -/
def isOkResult : Option (Except PyErr (List Dict)) → Bool
  | some (Except.ok _) => true
  | _ => false

/-- Fixture: input items A, B, C. -/
def cA : ContractIn := ⟨"A", "textA"⟩

def cB : ContractIn := ⟨"B", "textB"⟩

def cC : ContractIn := ⟨"C", "textC"⟩

/-- Fixture oracle: the model call for item B raises at the transport
layer; every other call returns the reply `"{}"`. -/
def gTransportB : Oracle := fun s =>
  if s = promptFor "textB" then Except.error PyErr.transport else Except.ok "\x7b\x7d"

/-- Fixture oracle: the model call for item B returns prose with no
JSON object; A's and C's calls return a parseable record. -/
def gJunkB : Oracle := fun s =>
  if s = promptFor "textB" then Except.ok "model said no"
  else Except.ok "\x7b\"effective_date\": \"2020-01-01\", \"duration\": \"P1Y6M\"\x7d"

/-- Fixture oracle that always returns an empty JSON object. -/
def gOk : Oracle := fun _ => Except.ok "\x7b\x7d"

/-- Fixture record: arrives from the model with a valid end_date. -/
def dEx : Dict := [("end_date", PyVal.str "2020-01-01")]

/-- The month/day rendering accepted by `%m`/`%d`: zero-padded when the
flag is true, a bare single digit when it is false. -/
def rep2 (n : Nat) (padded : Bool) : List Char := if padded then pad2 n else [digChr n]

/-- The calendar invariant preserved by the date arithmetic. -/
def okDate (t : Nat × Nat × Nat) : Prop :=
  1 ≤ t.2.1 ∧ t.2.1 ≤ 12 ∧ 1 ≤ t.2.2 ∧ t.2.2 ≤ daysInMonth t.1 t.2.1

/-- The purely sequential, in-order map of the per-item body over the
inputs, with CPython's exception semantics: the first raise aborts. -/
def sequential_map (g : Oracle) : List ContractIn → Except PyErr (List Dict)
  | [] => Except.ok []
  | c :: rest =>
    match process_contract_body g c with
    | Except.error e => Except.error e
    | Except.ok r =>
      match sequential_map g rest with
      | Except.error e => Except.error e
      | Except.ok rs => Except.ok (r :: rs)

/-! ## Lemmas -/

example : is_valid_date (PyVal.str "2020-01-01") = true := by decide
example : is_valid_date (PyVal.str "2020-1-1") = true := by decide
example : is_valid_date (PyVal.str "2020-13-01") = false := by decide
example : is_valid_date (PyVal.str "02/01/2020") = false := by decide
example : is_valid_date (PyVal.str "") = false := by decide
example : is_valid_date (PyVal.str "2021-02-29") = false := by decide
example : is_valid_date (PyVal.str "2020-02-29") = true := by decide
example : is_valid_date (PyVal.str "2020-01-011") = false := by decide
example : is_valid_date PyVal.none = false := by decide

example : add_duration_to_date (PyVal.str "2020-01-01") (PyVal.str "P1Y6M") =
    some "2021-07-01" := by decide
example : add_duration_to_date (PyVal.str "2020-01-30") (PyVal.str "P1M") =
    some "2020-02-29" := by decide
example : add_duration_to_date (PyVal.str "2020-12-31") (PyVal.str "P1D") =
    some "2021-01-01" := by decide
example : add_duration_to_date (PyVal.str "2020-01-01") (PyVal.str "PT48H") =
    some "2020-01-03" := by decide
example : add_duration_to_date (PyVal.str "2020-01-01") (PyVal.str "") = Option.none := by decide
example : add_duration_to_date (PyVal.str "2020-01-01") PyVal.none = Option.none := by decide
example : add_duration_to_date (PyVal.str "2020-01-01") (PyVal.str "P") = Option.none := by decide

theorem dictGet_set_self (d : Dict) (k : String) (v : PyVal) :
    dictGet (dictSet d k v) k = v := by
  induction d with
  | nil => simp [dictSet, dictGet]
  | cons kv rest ih =>
    by_cases h : kv.1 = k
    · simp [dictSet, dictGet, h]
    · simp [dictSet, dictGet, h, ih]

theorem dictGet_set_other (d : Dict) (k k' : String) (v : PyVal) (hne : k ≠ k') :
    dictGet (dictSet d k v) k' = dictGet d k' := by
  induction d with
  | nil => simp [dictSet, dictGet, hne]
  | cons kv rest ih =>
    by_cases h : kv.1 = k
    · simp [dictSet, dictGet, h, hne]
    · by_cases h' : kv.1 = k'
      · simp [dictSet, dictGet, h, h', Ne.symm hne]
      · simp [dictSet, dictGet, h, h', ih]

theorem dictGet_of_not_mem (d : Dict) (k : String) (h : dictMem d k = false) :
    dictGet d k = PyVal.none := by
  induction d with
  | nil => simp [dictGet]
  | cons kv rest ih =>
    by_cases hk : kv.1 = k
    · simp [dictMem, hk] at h
    · simp [dictMem, hk] at h
      simp [dictGet, hk, ih h]

theorem clean_field_get_self (d : Dict) (k : String) :
    dictGet (clean_field d k) k =
      (if is_valid_date (dictGet d k) then dictGet d k else PyVal.none) := by
  by_cases hm : dictMem d k
  · simp [clean_field, hm, dictGet_set_self]
  · simp only [Bool.not_eq_true] at hm
    simp [clean_field, hm, dictGet_of_not_mem d k hm, is_valid_date]

theorem clean_field_get_other (d : Dict) (k k' : String) (hne : k ≠ k') :
    dictGet (clean_field d k) k' = dictGet d k' := by
  by_cases hm : dictMem d k
  · simp [clean_field, hm, dictGet_set_other d k k' _ hne]
  · simp only [Bool.not_eq_true] at hm
    simp [clean_field, hm]

theorem char_le_iff (a b : Char) : a ≤ b ↔ a.toNat ≤ b.toNat :=
  ⟨fun h => h, fun h => h⟩

theorem isDig_bounds (c : Char) (h : isDig c = true) : 48 ≤ c.toNat ∧ c.toNat ≤ 57 := by
  simp [isDig] at h
  exact h

theorem isDig_of_bounds (c : Char) (h1 : 48 ≤ c.toNat) (h2 : c.toNat ≤ 57) : isDig c = true := by
  simp [isDig]
  exact ⟨h1, h2⟩

theorem digChr_digVal (c : Char) (h : isDig c = true) : digChr (digVal c) = c := by
  obtain ⟨h1, h2⟩ := isDig_bounds c h
  have he : 48 + (digVal c) = c.toNat := by
    simp [digVal]
    omega
  rw [digChr, he, Char.ofNat_toNat]

theorem digVal_le_of_isDig (c : Char) (h : isDig c = true) : digVal c ≤ 9 := by
  obtain ⟨h1, h2⟩ := isDig_bounds c h
  simp [digVal]
  omega

theorem isDig_digChr (k : Nat) (h : k ≤ 9) : isDig (digChr k) = true := by
  interval_cases k <;> decide

theorem digVal_digChr (k : Nat) (h : k ≤ 9) : digVal (digChr k) = k := by
  interval_cases k <;> decide

theorem read4_sound (cs : List Char) (y : Nat) (r : List Char)
    (h : read4 cs = some (y, r)) : y ≤ 9999 ∧ cs = pad4 y ++ r := by
  match cs with
  | [] => simp [read4] at h
  | [c1] => simp [read4] at h
  | [c1, c2] => simp [read4] at h
  | [c1, c2, c3] => simp [read4] at h
  | c1 :: c2 :: c3 :: c4 :: rest =>
    simp only [read4] at h
    split at h
    case isTrue hc =>
      simp only [Bool.and_eq_true] at hc
      obtain ⟨⟨⟨hc1, hc2⟩, hc3⟩, hc4⟩ := hc
      injection h with h'
      injection h' with hy hr
      subst hr
      have v1 := digVal_le_of_isDig c1 hc1
      have v2 := digVal_le_of_isDig c2 hc2
      have v3 := digVal_le_of_isDig c3 hc3
      have v4 := digVal_le_of_isDig c4 hc4
      constructor
      · omega
      · have e1 : y / 1000 % 10 = digVal c1 := by omega
        have e2 : y / 100 % 10 = digVal c2 := by omega
        have e3 : y / 10 % 10 = digVal c3 := by omega
        have e4 : y % 10 = digVal c4 := by omega
        simp [pad4, e1, e2, e3, e4, digChr_digVal c1 hc1, digChr_digVal c2 hc2,
          digChr_digVal c3 hc3, digChr_digVal c4 hc4]
    case isFalse => simp at h

theorem read4_pad (y : Nat) (r : List Char) (hy : y ≤ 9999) :
    read4 (pad4 y ++ r) = some (y, r) := by
  have b1 : y / 1000 % 10 ≤ 9 := by omega
  have b2 : y / 100 % 10 ≤ 9 := by omega
  have b3 : y / 10 % 10 ≤ 9 := by omega
  have b4 : y % 10 ≤ 9 := by omega
  simp [pad4, read4, isDig_digChr _ b1, isDig_digChr _ b2, isDig_digChr _ b3, isDig_digChr _ b4,
    digVal_digChr _ b1, digVal_digChr _ b2, digVal_digChr _ b3, digVal_digChr _ b4]
  omega

theorem readMonth_sound (cs : List Char) (m : Nat) (r : List Char)
    (h : readMonth cs = some (m, r)) :
    1 ≤ m ∧ m ≤ 12 ∧ (cs = pad2 m ++ r ∨ (m ≤ 9 ∧ cs = digChr m :: r)) := by
  match cs with
  | [] => simp [readMonth] at h
  | [c1] =>
    simp only [readMonth] at h
    split at h
    case isTrue hc =>
      simp only [Bool.and_eq_true, decide_eq_true_eq] at hc
      obtain ⟨hl, hr⟩ := hc
      have h1 : (49 : Nat) ≤ c1.toNat := hl
      have h2 : c1.toNat ≤ 57 := hr
      have hd : isDig c1 = true := isDig_of_bounds c1 (by omega) h2
      injection h with h'
      injection h' with hm hr'
      subst hm
      subst hr'
      refine ⟨by simp [digVal]; omega, by simp [digVal]; omega, Or.inr ⟨by simp [digVal]; omega, ?_⟩⟩
      simp [digChr_digVal c1 hd]
    case isFalse => simp at h
  | c1 :: c2 :: rest =>
    simp only [readMonth] at h
    split at h
    case isTrue hc =>
      simp only [Bool.and_eq_true, decide_eq_true_eq] at hc
      obtain ⟨⟨he, hl⟩, hr⟩ := hc
      have h1 : (48 : Nat) ≤ c2.toNat := hl
      have h2 : c2.toNat ≤ 50 := hr
      have hd : isDig c2 = true := isDig_of_bounds c2 h1 (by omega)
      have hv : digVal c2 ≤ 2 := by simp [digVal]; omega
      injection h with h'
      injection h' with hm hr'
      subst hm
      subst hr'
      refine ⟨by omega, by omega, Or.inl ?_⟩
      have e1 : (10 + digVal c2) / 10 % 10 = 1 := by omega
      have e2 : (10 + digVal c2) % 10 = digVal c2 := by omega
      have hone : digChr 1 = '1' := by decide
      simp only [pad2, e1, e2, digChr_digVal c2 hd, hone, he, List.cons_append, List.nil_append]
    case isFalse hnc =>
      split at h
      case isTrue hc =>
        simp only [Bool.and_eq_true, decide_eq_true_eq] at hc
        obtain ⟨⟨he, hl⟩, hr⟩ := hc
        have h1 : (49 : Nat) ≤ c2.toNat := hl
        have h2 : c2.toNat ≤ 57 := hr
        have hd : isDig c2 = true := isDig_of_bounds c2 (by omega) h2
        have hv1 : 1 ≤ digVal c2 := by simp [digVal]; omega
        have hv9 : digVal c2 ≤ 9 := by simp [digVal]; omega
        injection h with h'
        injection h' with hm hr'
        subst hm
        subst hr'
        refine ⟨hv1, by omega, Or.inl ?_⟩
        have e1 : digVal c2 / 10 % 10 = 0 := by omega
        have e2 : digVal c2 % 10 = digVal c2 := by omega
        have hzero : digChr 0 = '0' := by decide
        simp only [pad2, e1, e2, digChr_digVal c2 hd, hzero, he, List.cons_append,
          List.nil_append]
      case isFalse hnc2 =>
        split at h
        case isTrue hc =>
          simp only [Bool.and_eq_true, decide_eq_true_eq] at hc
          obtain ⟨hl, hr⟩ := hc
          have h1 : (49 : Nat) ≤ c1.toNat := hl
          have h2 : c1.toNat ≤ 57 := hr
          have hd : isDig c1 = true := isDig_of_bounds c1 (by omega) h2
          injection h with h'
          injection h' with hm hr'
          subst hm
          subst hr'
          exact ⟨by simp [digVal]; omega, by simp [digVal]; omega,
            Or.inr ⟨by simp [digVal]; omega, by simp [digChr_digVal c1 hd]⟩⟩
        case isFalse => simp at h

theorem readMonth_pad (m : Nat) (r : List Char) (h1 : 1 ≤ m) (h2 : m ≤ 12) :
    readMonth (pad2 m ++ r) = some (m, r) := by
  interval_cases m <;> rfl

theorem readMonth_unpad (m : Nat) (r : List Char) (h1 : 1 ≤ m) (h2 : m ≤ 9) :
    readMonth (digChr m :: '-' :: r) = some (m, '-' :: r) := by
  interval_cases m <;> rfl

theorem readDay_sound (cs : List Char) (d : Nat) (r : List Char)
    (h : readDay cs = some (d, r)) :
    1 ≤ d ∧ d ≤ 31 ∧ (cs = pad2 d ++ r ∨ (d ≤ 9 ∧ cs = digChr d :: r)) := by
  match cs with
  | [] => simp [readDay] at h
  | [c1] =>
    simp only [readDay] at h
    split at h
    case isTrue hc =>
      simp only [Bool.and_eq_true, decide_eq_true_eq] at hc
      obtain ⟨hl, hr⟩ := hc
      have h1 : (49 : Nat) ≤ c1.toNat := hl
      have h2 : c1.toNat ≤ 57 := hr
      have hd : isDig c1 = true := isDig_of_bounds c1 (by omega) h2
      injection h with h'
      injection h' with hm hr'
      subst hm
      subst hr'
      exact ⟨by simp [digVal]; omega, by simp [digVal]; omega,
        Or.inr ⟨by simp [digVal]; omega, by simp [digChr_digVal c1 hd]⟩⟩
    case isFalse => simp at h
  | c1 :: c2 :: rest =>
    simp only [readDay] at h
    split at h
    case isTrue hc =>
      simp only [Bool.and_eq_true, decide_eq_true_eq] at hc
      obtain ⟨⟨he, hl⟩, hr⟩ := hc
      have h1 : (48 : Nat) ≤ c2.toNat := hl
      have h2 : c2.toNat ≤ 49 := hr
      have hd : isDig c2 = true := isDig_of_bounds c2 h1 (by omega)
      have hv : digVal c2 ≤ 1 := by simp [digVal]; omega
      injection h with h'
      injection h' with hm hr'
      subst hm
      subst hr'
      refine ⟨by omega, by omega, Or.inl ?_⟩
      have e1 : (30 + digVal c2) / 10 % 10 = 3 := by omega
      have e2 : (30 + digVal c2) % 10 = digVal c2 := by omega
      have hthree : digChr 3 = '3' := by decide
      simp only [pad2, e1, e2, digChr_digVal c2 hd, hthree, he, List.cons_append,
        List.nil_append]
    case isFalse hnc =>
      split at h
      case isTrue hc =>
        simp only [Bool.and_eq_true, decide_eq_true_eq] at hc
        obtain ⟨⟨hl1, hr1⟩, hd2⟩ := hc
        have h1 : (49 : Nat) ≤ c1.toNat := hl1
        have h2 : c1.toNat ≤ 50 := hr1
        have hd1 : isDig c1 = true := isDig_of_bounds c1 (by omega) (by omega)
        have hv1 : 1 ≤ digVal c1 := by simp [digVal]; omega
        have hv2 : digVal c1 ≤ 2 := by simp [digVal]; omega
        have hv3 : digVal c2 ≤ 9 := digVal_le_of_isDig c2 hd2
        injection h with h'
        injection h' with hm hr'
        subst hm
        subst hr'
        refine ⟨by omega, by omega, Or.inl ?_⟩
        have e1 : (10 * digVal c1 + digVal c2) / 10 % 10 = digVal c1 := by omega
        have e2 : (10 * digVal c1 + digVal c2) % 10 = digVal c2 := by omega
        simp only [pad2, e1, e2, digChr_digVal c1 hd1, digChr_digVal c2 hd2,
          List.cons_append, List.nil_append]
      case isFalse hnc2 =>
        split at h
        case isTrue hc =>
          simp only [Bool.and_eq_true, decide_eq_true_eq] at hc
          obtain ⟨⟨he, hl⟩, hr⟩ := hc
          have h1 : (49 : Nat) ≤ c2.toNat := hl
          have h2 : c2.toNat ≤ 57 := hr
          have hd : isDig c2 = true := isDig_of_bounds c2 (by omega) h2
          injection h with h'
          injection h' with hm hr'
          subst hm
          subst hr'
          refine ⟨by simp [digVal]; omega, by simp [digVal]; omega, Or.inl ?_⟩
          have e1 : digVal c2 / 10 % 10 = 0 := by
            have : digVal c2 ≤ 9 := by simp [digVal]; omega
            omega
          have e2 : digVal c2 % 10 = digVal c2 := by
            have : digVal c2 ≤ 9 := by simp [digVal]; omega
            omega
          have hzero : digChr 0 = '0' := by decide
          simp only [pad2, e1, e2, digChr_digVal c2 hd, hzero, he, List.cons_append,
            List.nil_append]
        case isFalse hnc3 =>
          split at h
          case isTrue hc =>
            simp only [Bool.and_eq_true, decide_eq_true_eq] at hc
            obtain ⟨hl, hr⟩ := hc
            have h1 : (49 : Nat) ≤ c1.toNat := hl
            have h2 : c1.toNat ≤ 57 := hr
            have hd : isDig c1 = true := isDig_of_bounds c1 (by omega) h2
            injection h with h'
            injection h' with hm hr'
            subst hm
            subst hr'
            exact ⟨by simp [digVal]; omega, by simp [digVal]; omega,
              Or.inr ⟨by simp [digVal]; omega, by simp [digChr_digVal c1 hd]⟩⟩
          case isFalse => simp at h

theorem readDay_pad (d : Nat) (r : List Char) (h1 : 1 ≤ d) (h2 : d ≤ 31) :
    readDay (pad2 d ++ r) = some (d, r) := by
  interval_cases d <;> rfl

theorem readDay_unpad (d : Nat) (h1 : 1 ≤ d) (h2 : d ≤ 9) :
    readDay [digChr d] = some (d, []) := by
  interval_cases d <;> rfl

theorem expectDash_sound (cs r : List Char) (h : expectDash cs = some r) : cs = '-' :: r := by
  match cs with
  | [] => simp [expectDash] at h
  | c :: rest =>
    simp only [expectDash] at h
    split at h
    case isTrue hc =>
      injection h with h'
      subst h'
      subst hc
      rfl
    case isFalse => simp at h

theorem parseYmd_sound (cs : List Char) (y m d : Nat) (h : parseYmd cs = some (y, m, d)) :
    y ≤ 9999 ∧ 1 ≤ m ∧ m ≤ 12 ∧ 1 ≤ d ∧ d ≤ 31 ∧
      ∃ pm pd : Bool, (pm = false → m ≤ 9) ∧ (pd = false → d ≤ 9) ∧
        cs = pad4 y ++ '-' :: (rep2 m pm ++ '-' :: rep2 d pd) := by
  simp only [parseYmd] at h
  split at h
  case _ y1 r1 hE4 =>
    split at h
    case _ r2 hED1 =>
      split at h
      case _ m1 r3 hEM =>
        split at h
        case _ r4 hED2 =>
          split at h
          case _ d1 hDY =>
            injection h with h'
            injection h' with hy h''
            injection h'' with hm hd
            subst hy
            subst hm
            subst hd
            obtain ⟨hy9, hcs4⟩ := read4_sound cs y1 r1 hE4
            have hr1 : r1 = '-' :: r2 := expectDash_sound r1 r2 hED1
            obtain ⟨hm1, hm2, hmrep⟩ := readMonth_sound r2 m1 r3 hEM
            have hr3 : r3 = '-' :: r4 := expectDash_sound r3 r4 hED2
            obtain ⟨hd1, hd2, hdrep⟩ := readDay_sound r4 d1 [] hDY
            refine ⟨hy9, hm1, hm2, hd1, hd2, ?_⟩
            rcases hmrep with hmp | ⟨hm9, hmu⟩
            · rcases hdrep with hdp | ⟨hd9, hdu⟩
              · exact ⟨true, true, by simp, by simp,
                  by simp [rep2, hcs4, hr1, hmp, hr3, hdp]⟩
              · exact ⟨true, false, by simp, fun _ => hd9,
                  by simp [rep2, hcs4, hr1, hmp, hr3, hdu]⟩
            · rcases hdrep with hdp | ⟨hd9, hdu⟩
              · exact ⟨false, true, fun _ => hm9, by simp,
                  by simp [rep2, hcs4, hr1, hmu, hr3, hdp]⟩
              · exact ⟨false, false, fun _ => hm9, fun _ => hd9,
                  by simp [rep2, hcs4, hr1, hmu, hr3, hdu]⟩
          case _ hne => simp at h
        case _ => simp at h
      case _ => simp at h
    case _ => simp at h
  case _ => simp at h

theorem parseYmd_complete (y m d : Nat) (pm pd : Bool)
    (hy : y ≤ 9999) (hm1 : 1 ≤ m) (hm2 : m ≤ 12) (hd1 : 1 ≤ d) (hd2 : d ≤ 31)
    (hpm : pm = false → m ≤ 9) (hpd : pd = false → d ≤ 9) :
    parseYmd (pad4 y ++ '-' :: (rep2 m pm ++ '-' :: rep2 d pd)) = some (y, m, d) := by
  cases pm
  · cases pd
    · have hm9 := hpm rfl
      have hd9 := hpd rfl
      simp only [rep2, if_neg Bool.false_ne_true, List.cons_append, List.nil_append]
      simp [parseYmd, read4_pad y _ hy, expectDash, readMonth_unpad m _ hm1 hm9,
        readDay_unpad d hd1 hd9]
    · have hm9 := hpm rfl
      simp only [rep2, if_neg Bool.false_ne_true, if_pos rfl, List.cons_append, List.nil_append]
      have hday : readDay (pad2 d ++ ([] : List Char)) = some (d, []) := readDay_pad d [] hd1 hd2
      simp only [List.append_nil] at hday
      simp [parseYmd, read4_pad y _ hy, expectDash, readMonth_unpad m _ hm1 hm9, hday]
  · cases pd
    · have hd9 := hpd rfl
      simp only [rep2, if_neg Bool.false_ne_true, if_pos rfl, List.cons_append, List.nil_append]
      simp [parseYmd, read4_pad y _ hy, expectDash, readMonth_pad m _ hm1 hm2,
        readDay_unpad d hd1 hd9]
    · simp only [rep2, if_pos rfl, List.cons_append, List.nil_append]
      have hday : readDay (pad2 d ++ ([] : List Char)) = some (d, []) := readDay_pad d [] hd1 hd2
      simp only [List.append_nil] at hday
      simp [parseYmd, read4_pad y _ hy, expectDash, readMonth_pad m _ hm1 hm2, hday]

theorem daysInMonth_le31 (y m : Nat) : daysInMonth y m ≤ 31 := by
  simp only [daysInMonth]
  repeat' split
  all_goals omega

theorem daysInMonth_pos (y m : Nat) : 1 ≤ daysInMonth y m := by
  simp only [daysInMonth]
  repeat' split
  all_goals omega

theorem strptime_sound (cs : List Char) (y m d : Nat) (h : strptime_Ymd cs = some (y, m, d)) :
    1 ≤ y ∧ y ≤ 9999 ∧ 1 ≤ m ∧ m ≤ 12 ∧ 1 ≤ d ∧ d ≤ daysInMonth y m ∧
      ∃ pm pd : Bool, (pm = false → m ≤ 9) ∧ (pd = false → d ≤ 9) ∧
        cs = pad4 y ++ '-' :: (rep2 m pm ++ '-' :: rep2 d pd) := by
  simp only [strptime_Ymd] at h
  split at h
  case _ y1 m1 d1 hP =>
    split at h
    case isTrue hc =>
      injection h with h'
      injection h' with hy h''
      injection h'' with hm hd
      subst hy
      subst hm
      subst hd
      obtain ⟨hy9, hm1, hm2, hd1, hd31, pm, pd, hpm, hpd, hcs⟩ := parseYmd_sound cs y1 m1 d1 hP
      exact ⟨hc.1, hy9, hm1, hm2, hd1, hc.2, pm, pd, hpm, hpd, hcs⟩
    case isFalse => simp at h
  case _ => simp at h

theorem strptime_complete (y m d : Nat) (pm pd : Bool) (h1 : 1 ≤ y) (hy : y ≤ 9999)
    (hm1 : 1 ≤ m) (hm2 : m ≤ 12) (hd1 : 1 ≤ d) (hdm : d ≤ daysInMonth y m)
    (hpm : pm = false → m ≤ 9) (hpd : pd = false → d ≤ 9) :
    strptime_Ymd (pad4 y ++ '-' :: (rep2 m pm ++ '-' :: rep2 d pd)) = some (y, m, d) := by
  have hd31 : d ≤ 31 := le_trans hdm (daysInMonth_le31 y m)
  simp [strptime_Ymd, parseYmd_complete y m d pm pd hy hm1 hm2 hd1 hd31 hpm hpd, h1, hdm]

theorem strftime_toList (y m d : Nat) :
    (strftime_Ymd y m d).toList = pad4 y ++ '-' :: (rep2 m true ++ '-' :: rep2 d true) := by
  simp [strftime_Ymd, rep2]

theorem is_valid_strftime (y m d : Nat) (h1 : 1 ≤ y) (hy : y ≤ 9999) (hm1 : 1 ≤ m)
    (hm2 : m ≤ 12) (hd1 : 1 ≤ d) (hdm : d ≤ daysInMonth y m) :
    is_valid_date (PyVal.str (strftime_Ymd y m d)) = true := by
  simp only [is_valid_date, strftime_toList]
  rw [strptime_complete y m d true true h1 hy hm1 hm2 hd1 hdm (by simp) (by simp)]
  rfl

theorem addYearsMonths_ok (y m d Y M : Nat) (hd : 1 ≤ d) :
    okDate (addYearsMonths y m d Y M) := by
  simp only [addYearsMonths, okDate]
  refine ⟨by omega, by omega, ?_, ?_⟩
  · have hp := daysInMonth_pos (y + Y + (m - 1 + M) / 12) ((m - 1 + M) % 12 + 1)
    simp [Nat.min_def]
    split
    all_goals omega
  · simp [Nat.min_def]
    split
    all_goals omega

theorem nextDay_ok (y m d : Nat) (h : okDate (y, m, d)) : okDate (nextDay y m d) := by
  have h1 : 1 ≤ m := h.1
  have h2 : m ≤ 12 := h.2.1
  have p1 := daysInMonth_pos y (m + 1)
  have p2 := daysInMonth_pos (y + 1) 1
  simp only [nextDay]
  split
  case isTrue hlt => exact ⟨h1, h2, show 1 ≤ d + 1 by omega, hlt⟩
  case isFalse hge =>
    split
    case isTrue hm => exact ⟨show 1 ≤ m + 1 by omega, hm, le_refl 1, p1⟩
    case isFalse hm => exact ⟨le_refl 1, show (1 : Nat) ≤ 12 by omega, le_refl 1, p2⟩

theorem addDays_ok (n : Nat) (y m d : Nat) (h : okDate (y, m, d)) :
    okDate (addDays y m d n) := by
  induction n generalizing y m d with
  | zero => exact h
  | succ k ih =>
    simp only [addDays]
    exact ih (nextDay y m d).1 (nextDay y m d).2.1 (nextDay y m d).2.2 (nextDay_ok y m d h)

theorem add_duration_valid (u v : PyVal) (s : String)
    (h : add_duration_to_date u v = some s) : is_valid_date (PyVal.str s) = true := by
  match u, v with
  | PyVal.str ds, PyVal.str dus =>
    simp only [add_duration_to_date] at h
    split at h
    case _ y m d hS =>
      split at h
      case _ du hD =>
        split at h
        case isTrue hc =>
          injection h with h'
          subst h'
          obtain ⟨hy1, hy9, hm1, hm2, hd1, hdm, _⟩ := strptime_sound ds.toList y m d hS
          have hok1 : okDate (addYearsMonths y m d du.years du.months) :=
            addYearsMonths_ok y m d du.years du.months hd1
          have hok2 : okDate (addDays (addYearsMonths y m d du.years du.months).1
              (addYearsMonths y m d du.years du.months).2.1
              (addYearsMonths y m d du.years du.months).2.2 (durationDays du)) :=
            addDays_ok (durationDays du) _ _ _ hok1
          obtain ⟨g1, g2, g3, g4⟩ := hok2
          exact is_valid_strftime _ _ _ hc.1 hc.2 g1 g2 g3 g4
        case isFalse => simp at h
      case _ => simp at h
    case _ => simp at h
  | PyVal.none, _ => simp [add_duration_to_date] at h
  | PyVal.bool b, _ => simp [add_duration_to_date] at h
  | PyVal.num lex, _ => simp [add_duration_to_date] at h
  | PyVal.list xs, _ => simp [add_duration_to_date] at h
  | PyVal.dict kvs, _ => simp [add_duration_to_date] at h
  | PyVal.str ds, PyVal.none => simp [add_duration_to_date] at h
  | PyVal.str ds, PyVal.bool b => simp [add_duration_to_date] at h
  | PyVal.str ds, PyVal.num lex => simp [add_duration_to_date] at h
  | PyVal.str ds, PyVal.list xs => simp [add_duration_to_date] at h
  | PyVal.str ds, PyVal.dict kvs => simp [add_duration_to_date] at h

theorem toList_nil_of_isEmpty (s : String) (h : s.isEmpty = true) : s.toList = [] := by
  cases s with
  | mk l =>
    cases l with
    | nil => rfl
    | cons c cs =>
      simp [String.isEmpty, String.endPos] at h
      have h2 : String.utf8Len cs + c.utf8Size = 0 := congrArg String.Pos.byteIdx h
      have h3 := Char.utf8Size_pos c
      omega

theorem isNone_eq (v : PyVal) (h : isNone v = true) : v = PyVal.none := by
  cases v <;> simp [isNone] at h ⊢

theorem is_valid_shape (v : PyVal) (h : is_valid_date v = true) :
    truthy v = true ∧ isNone v = false := by
  match v with
  | PyVal.none => simp [is_valid_date] at h
  | PyVal.bool b => simp [is_valid_date] at h
  | PyVal.num lex => simp [is_valid_date] at h
  | PyVal.list xs => simp [is_valid_date] at h
  | PyVal.dict kvs => simp [is_valid_date] at h
  | PyVal.str s =>
    refine ⟨?_, rfl⟩
    cases hE : s.isEmpty with
    | true =>
      rw [is_valid_date, toList_nil_of_isEmpty s hE] at h
      exact absurd h (by decide)
    | false => simp [truthy, hE]

theorem add_duration_falsy (u v : PyVal) (hnn : isNone v = false) (hv : truthy v = false) :
    add_duration_to_date u v = Option.none := by
  match v with
  | PyVal.none => simp [isNone] at hnn
  | PyVal.bool b => cases u <;> rfl
  | PyVal.num lex => cases u <;> rfl
  | PyVal.list xs => cases u <;> rfl
  | PyVal.dict kvs => cases u <;> rfl
  | PyVal.str s =>
    have hE : s.isEmpty = true := by
      simpa [truthy] using hv
    have hL : s.toList = [] := toList_nil_of_isEmpty s hE
    match u with
    | PyVal.none => rfl
    | PyVal.bool b => rfl
    | PyVal.num lex => rfl
    | PyVal.list xs => rfl
    | PyVal.dict kvs => rfl
    | PyVal.str ds =>
      simp only [add_duration_to_date, hL]
      cases hS : strptime_Ymd ds.toList with
      | none => rfl
      | some t =>
        obtain ⟨y, m, d⟩ := t
        simp [parse_duration_chars]

theorem cleaned_get_end (d : Dict) :
    dictGet (cleaned d) "end_date" =
      (if is_valid_date (dictGet d "end_date") then dictGet d "end_date" else PyVal.none) := by
  unfold cleaned
  rw [clean_field_get_self,
    clean_field_get_other d "effective_date" "end_date" (by decide)]

theorem cleaned_get_eff (d : Dict) :
    dictGet (cleaned d) "effective_date" =
      (if is_valid_date (dictGet d "effective_date") then dictGet d "effective_date"
       else PyVal.none) := by
  unfold cleaned
  rw [clean_field_get_other _ "end_date" "effective_date" (by decide), clean_field_get_self]

theorem cleaned_get_duration (d : Dict) :
    dictGet (cleaned d) "duration" = dictGet d "duration" := by
  unfold cleaned
  rw [clean_field_get_other _ "end_date" "duration" (by decide),
    clean_field_get_other _ "effective_date" "duration" (by decide)]

theorem infer_get_eff (d : Dict) :
    dictGet (infer_step d) "effective_date" = dictGet d "effective_date" := by
  simp only [infer_step]
  split
  case isTrue =>
    cases hA : add_duration_to_date (dictGet d "effective_date") (dictGet d "duration") with
    | none => rfl
    | some s => exact dictGet_set_other d "end_date" "effective_date" _ (by decide)
  case isFalse => rfl

theorem pipeline_end_eq (d : Dict) :
    dictGet (clean_and_infer d) "end_date" =
      (if infer_condition (cleaned d) then inferred_end (cleaned d)
       else dictGet (cleaned d) "end_date") := by
  have hend := cleaned_get_end d
  have heff := cleaned_get_eff d
  have hdur := cleaned_get_duration d
  have hca : clean_and_infer d = infer_step (cleaned d) := rfl
  rw [hca]
  by_cases hv : is_valid_date (dictGet d "end_date") = true
  · rw [if_pos hv] at hend
    have hvc : is_valid_date (dictGet (cleaned d) "end_date") = true := by
      rw [hend]
      exact hv
    obtain ⟨ht, hn⟩ := is_valid_shape _ hvc
    simp [infer_step, infer_condition, ht, hn]
  · simp only [Bool.not_eq_true] at hv
    rw [hv, if_neg (by simp)] at hend
    have t_end : truthy (dictGet (cleaned d) "end_date") = false := by rw [hend]; rfl
    have n_end : isNone (dictGet (cleaned d) "end_date") = true := by rw [hend]; rfl
    by_cases hveff : is_valid_date (dictGet d "effective_date") = true
    · rw [if_pos hveff] at heff
      have v_eff : is_valid_date (dictGet (cleaned d) "effective_date") = true := by
        rw [heff]
        exact hveff
      obtain ⟨t_eff, _⟩ := is_valid_shape _ v_eff
      by_cases hdn : isNone (dictGet d "duration") = true
      · have hdnone : dictGet d "duration" = PyVal.none := isNone_eq _ hdn
        have t_dur : truthy (dictGet (cleaned d) "duration") = false := by
          rw [hdur, hdnone]
          rfl
        have n_dur : isNone (dictGet (cleaned d) "duration") = true := by
          rw [hdur, hdnone]
          rfl
        simp [infer_step, infer_condition, t_end, n_end, t_eff, v_eff, t_dur, n_dur]
      · simp only [Bool.not_eq_true] at hdn
        have n_dur : isNone (dictGet (cleaned d) "duration") = false := by rw [hdur]; exact hdn
        by_cases hdt : truthy (dictGet d "duration") = true
        · have t_dur : truthy (dictGet (cleaned d) "duration") = true := by
            rw [hdur]
            exact hdt
          simp only [infer_step, infer_condition, inferred_end, t_end, n_end, t_eff, v_eff,
            t_dur, n_dur, Bool.not_false, Bool.true_and, Bool.and_true, Bool.not_true,
            Bool.false_and, Bool.and_false, if_true, if_false]
          cases hA : add_duration_to_date (dictGet (cleaned d) "effective_date")
              (dictGet (cleaned d) "duration") with
          | none => simp
          | some s => simp [dictGet_set_self]
        · simp only [Bool.not_eq_true] at hdt
          have t_dur : truthy (dictGet (cleaned d) "duration") = false := by
            rw [hdur]
            exact hdt
          have hA : add_duration_to_date (dictGet (cleaned d) "effective_date")
              (dictGet (cleaned d) "duration") = Option.none :=
            add_duration_falsy _ _ n_dur t_dur
          simp [infer_step, infer_condition, inferred_end, t_end, n_end, t_eff, v_eff,
            t_dur, n_dur, hA]
    · simp only [Bool.not_eq_true] at hveff
      rw [hveff, if_neg (by simp)] at heff
      have v_eff : is_valid_date (dictGet (cleaned d) "effective_date") = false := by
        rw [heff]
        rfl
      have t_eff : truthy (dictGet (cleaned d) "effective_date") = false := by
        rw [heff]
        rfl
      simp [infer_step, infer_condition, t_end, n_end, t_eff, v_eff]

theorem pipeline_eff_eq (d : Dict) :
    dictGet (clean_and_infer d) "effective_date" =
      (if is_valid_date (dictGet d "effective_date") then dictGet d "effective_date"
       else PyVal.none) := by
  have hca : clean_and_infer d = infer_step (cleaned d) := rfl
  rw [hca, infer_get_eff, cleaned_get_eff]

theorem pipeline_end_valid (d : Dict)
    (h : isNone (dictGet (clean_and_infer d) "end_date") = false) :
    is_valid_date (dictGet (clean_and_infer d) "end_date") = true := by
  rw [pipeline_end_eq] at h ⊢
  cases hC : infer_condition (cleaned d) with
  | false =>
    rw [hC] at h
    rw [if_neg (by decide : ¬((false : Bool) = true))] at h ⊢
    rw [cleaned_get_end] at h ⊢
    by_cases hv : is_valid_date (dictGet d "end_date") = true
    · rw [if_pos hv]
      exact hv
    · simp only [Bool.not_eq_true] at hv
      rw [hv] at h
      rw [if_neg (by decide : ¬((false : Bool) = true))] at h
      exact absurd h (by decide)
  | true =>
    rw [hC] at h
    rw [if_pos (show (true : Bool) = true from rfl)] at h ⊢
    simp only [inferred_end] at h ⊢
    cases hA : add_duration_to_date (dictGet (cleaned d) "effective_date")
        (dictGet (cleaned d) "duration") with
    | some s => exact add_duration_valid _ _ s hA
    | none =>
      rw [hA] at h
      have hno : isNone (dictGet (cleaned d) "end_date") = true := by
        simp only [infer_condition, Bool.and_eq_true] at hC
        exact hC.1.1
      rw [isNone_eq _ hno] at h
      simp [isNone] at h

theorem process_all_loop_eq (g : Oracle) (cs : List ContractIn) (mw : Nat) (acc : List Dict)
    (h : 1 ≤ mw) :
    process_all_loop g cs mw acc =
      some (Except.map (fun rs => acc.reverse ++ rs) (sequential_map g cs)) := by
  induction cs generalizing acc with
  | nil => simp [process_all_loop, sequential_map, Except.map]
  | cons c rest ih =>
    simp only [process_all_loop, process_contract, sequential_map]
    rw [if_neg (by omega)]
    cases hb : process_contract_body g c with
    | error e => simp [Except.map]
    | ok r =>
      simp only []
      rw [ih (r :: acc)]
      cases hm : sequential_map g rest with
      | error e => simp [Except.map]
      | ok rs => simp [Except.map]

theorem pyFindAux_found (cs : List Char) (t : Char) (i : Nat)
    (h : pyFindAux cs t i ≠ -1) :
    ∃ pre post, cs = pre ++ t :: post ∧
      pyFindAux cs t i = ((i + pre.length : Nat) : Int) := by
  induction cs generalizing i with
  | nil => simp [pyFindAux] at h
  | cons c rest ih =>
    by_cases hc : c = t
    · refine ⟨[], rest, by simp [hc], ?_⟩
      simp [pyFindAux, hc]
    · simp only [pyFindAux, if_neg hc] at h ⊢
      obtain ⟨pre, post, he, hv⟩ := ih (i + 1) h
      refine ⟨c :: pre, post, by simp [he], ?_⟩
      rw [hv]
      simp only [List.length_cons]
      congr 1
      omega

theorem toList_mk (l : List Char) : (String.mk l).toList = l := rfl

theorem parseVal_brace (f : Nat) (cs : List Char) (v : PyVal) (r : List Char)
    (h : parseVal (f + 1) ('{' :: cs) = some (v, r)) : ∃ kvs, v = PyVal.dict kvs := by
  have hsk : skipWs ('{' :: cs) = '{' :: cs := by
    simp [skipWs, isJsonWs]
  simp only [parseVal, hsk] at h
  rw [if_pos trivial] at h
  cases hO : parseObjBody f (skipWs cs) [] true with
  | none => rw [hO] at h; simp at h
  | some p =>
    obtain ⟨kvs, r'⟩ := p
    rw [hO] at h
    injection h with h'
    injection h' with hv hr
    exact ⟨kvs, hv.symm⟩

theorem json_loads_brace (cs : List Char) (v : PyVal)
    (h : json_loads_chars ('{' :: cs) = some v) : ∃ kvs, v = PyVal.dict kvs := by
  simp only [json_loads_chars] at h
  cases hP : parseVal (('{' :: cs).length + 1) ('{' :: cs) with
  | none => rw [hP] at h; simp at h
  | some p =>
    obtain ⟨v', r⟩ := p
    rw [hP] at h
    split at h
    next v1 r1 heq =>
      injection heq with heq'
      injection heq' with hv1 hr1
      subst hv1
      subst hr1
      split at h
      · injection h with h'
        subst h'
        rw [show ('{' :: cs).length + 1 = cs.length + 1 + 1 from by simp] at hP
        exact parseVal_brace (cs.length + 1) cs v' r hP
      · simp at h
    next heq => simp at h

/-! ## Claims -/

set_option maxRecDepth 200000 in
/-- C1 (counterexample): with inputs `[A, B, C]` where B's model call raises
a transport error, `process_all` does *not* return three results — the
exception propagates out of the loop (line 162 sits outside the `try:` and
`process_all` has no handler), aborting the batch before C is processed. -/
theorem claim_C1_counterexample :
    process_all gTransportB [cA, cB, cC] 5 = some (Except.error PyErr.transport) ∧
    isOkResult (process_all gTransportB [cA, cB, cC] 5) = false := by
  constructor
  · rfl
  · rfl

set_option maxRecDepth 200000 in
/-- C1 (amended): only a parse failure is isolated: if B's model call
*returns* a reply with no parseable JSON while A's and C's calls succeed,
`process_all` returns exactly three results, index-for-index in input
order, with B's slot a tagged PartialRecord carrying the error and B's raw
reply and the other two items processed normally; whereas a TransportError
raised by B's model call propagates out of `process_all`, aborting the
batch with no result list at all. -/
theorem claim_C1_amended :
    process_all gJunkB [cA, cB, cC] 5 = some (Except.ok
      [ [("effective_date", PyVal.str "2020-01-01"), ("duration", PyVal.str "P1Y6M"),
         ("file_id", PyVal.str "A"), ("end_date", PyVal.str "2021-07-01")],
        [("error", PyVal.str "No JSON found in response"),
         ("raw", PyVal.str "model said no"), ("file_id", PyVal.str "B")],
        [("effective_date", PyVal.str "2020-01-01"), ("duration", PyVal.str "P1Y6M"),
         ("file_id", PyVal.str "C"), ("end_date", PyVal.str "2021-07-01")] ]) ∧
    isOkResult (process_all gTransportB [cA, cB, cC] 5) = false := by
  constructor
  · rfl
  · rfl

/-- C2: `find_most_relevant_contract` (`best_match`) over an empty
candidate set fails with the EmptyIndex error condition — it returns the
error, never an `(id, score)` pair (spec-modelled: the function is
imported by `app.py` but absent from the provided sources). -/
theorem claim_C2 (sim : List ℚ → List ℚ → ℚ) (q : List ℚ) :
    find_most_relevant_contract sim q [] = Except.error RetrievalErr.emptyIndex := rfl

/-- C3: the JSON-substring parser on the reply
`Here is the data: {"a": 1, "b": {"c": 2}} Thanks!` returns the object
parsed from the span between the first `{` and the last `}`, and on
`no braces here` returns the tagged failure carrying the original text. -/
theorem claim_C3 :
    parse_model_reply "Here is the data: \x7b\"a\": 1, \"b\": \x7b\"c\": 2\x7d\x7d Thanks!" =
      PyVal.dict [("a", PyVal.num "1"), ("b", PyVal.dict [("c", PyVal.num "2")])] ∧
    parse_model_reply "no braces here" =
      PyVal.dict [("error", PyVal.str "No JSON found in response"),
        ("raw", PyVal.str "no braces here")] := by
  constructor
  · rfl
  · rfl

/-- C4: for every model reply, the parsing step is total and returns
either the JSON object parsed from the brace-delimited span, or a tagged
failure dict that carries the original raw reply. -/
theorem claim_C4 (response : String) :
    (∃ kvs, parse_model_reply response = PyVal.dict kvs ∧
      json_loads_chars (pySlice response (pyFind response '{')
        (pyRfind response '}' + 1)).toList = some (PyVal.dict kvs)) ∨
    (∃ e, parse_model_reply response = PyVal.dict
      [("error", PyVal.str e), ("raw", PyVal.str response)]) := by
  by_cases hc : (pyFind response '{' ≠ -1 ∧ pyRfind response '}' + 1 ≠ -1)
  · cases hL : json_loads_chars (pySlice response (pyFind response '{')
        (pyRfind response '}' + 1)).toList with
    | none =>
      right
      refine ⟨"Failed to parse JSON", ?_⟩
      simp only [parse_model_reply, if_pos hc, hL]
    | some v =>
      have hv : ∃ kvs, v = PyVal.dict kvs := by
        obtain ⟨pre, post, hdecomp, hfv⟩ := pyFindAux_found response.toList '{' 0 hc.1
        have hfv' : pyFind response '{' = ((pre.length : Nat) : Int) := by
          rw [pyFind, hfv]
          simp
        have hdrop : response.toList.drop pre.length = '{' :: post := by
          rw [hdecomp]
          exact List.drop_left pre ('{' :: post)
        have hslice : (pySlice response (pyFind response '{')
            (pyRfind response '}' + 1)).toList =
            ('{' :: post).take ((pyRfind response '}' + 1).toNat - pre.length) := by
          rw [pySlice, toList_mk, hfv']
          rw [Int.toNat_natCast, hdrop]
        rw [hslice] at hL
        cases hk : (pyRfind response '}' + 1).toNat - pre.length with
        | zero =>
          rw [hk, List.take_zero] at hL
          rw [show json_loads_chars [] = Option.none from rfl] at hL
          exact absurd hL (by simp)
        | succ j =>
          rw [hk, List.take_succ_cons] at hL
          exact json_loads_brace _ v hL
      obtain ⟨kvs, rfl⟩ := hv
      left
      refine ⟨kvs, ?_, rfl⟩
      simp only [parse_model_reply, if_pos hc, hL]
  · right
    refine ⟨"No JSON found in response", ?_⟩
    simp only [parse_model_reply, if_neg hc]

/-- C5 (counterexample): `is_valid_date` accepts `"2020-1-1"`, a string
that is not in the fixed zero-padded `YYYY-MM-DD` format, so "every
string in any other format yields false" fails on the code. -/
theorem claim_C5_counterexample :
    is_valid_date (PyVal.str "2020-1-1") = true ∧ isStrictYmdDate "2020-1-1" = false := by
  constructor
  · decide
  · decide

/-- C5 (amended): `is_valid_date` returns true exactly on the calendar
dates of the *lenient* `%Y-%m-%d` language that `strptime` accepts: a
four-digit year, dashes, and a month and day that may each be either
zero-padded to two digits or a bare single digit; every other string
(wrong separators, non-numeric, empty, out-of-range fields) yields false,
with parse exceptions swallowed. -/
theorem claim_C5_amended (s : String) :
    is_valid_date (PyVal.str s) = true ↔
      ∃ y m d : Nat, ∃ pm pd : Bool,
        1 ≤ y ∧ y ≤ 9999 ∧ 1 ≤ m ∧ m ≤ 12 ∧ 1 ≤ d ∧ d ≤ daysInMonth y m ∧
        (pm = false → m ≤ 9) ∧ (pd = false → d ≤ 9) ∧
        s.toList = pad4 y ++ '-' :: (rep2 m pm ++ '-' :: rep2 d pd) := by
  constructor
  · intro h
    simp only [is_valid_date, Option.isSome_iff_exists] at h
    obtain ⟨t, ht⟩ := h
    obtain ⟨y, t2⟩ := t
    obtain ⟨m, d⟩ := t2
    obtain ⟨h1, h9, hm1, hm2, hd1, hdm, pm, pd, hpm, hpd, hcs⟩ :=
      strptime_sound s.toList y m d ht
    exact ⟨y, m, d, pm, pd, h1, h9, hm1, hm2, hd1, hdm, hpm, hpd, hcs⟩
  · rintro ⟨y, m, d, pm, pd, h1, h9, hm1, hm2, hd1, hdm, hpm, hpd, hcs⟩
    simp only [is_valid_date, hcs,
      strptime_complete y m d pm pd h1 h9 hm1 hm2 hd1 hdm hpm hpd]
    rfl

/-- C6: end-date inference computes `"2020-01-01" + "P1Y6M" = "2021-07-01"`,
and when the duration or the effective date is absent the inference block
leaves the record unchanged (end_date stays absent) instead of erroring. -/
theorem claim_C6 :
    add_duration_to_date (PyVal.str "2020-01-01") (PyVal.str "P1Y6M") = some "2021-07-01" ∧
    ∀ d : Dict,
      (dictGet d "duration" = PyVal.none ∨ dictGet d "effective_date" = PyVal.none) →
      infer_step d = d := by
  constructor
  · rfl
  · intro d hd
    rcases hd with h | h
    · simp [infer_step, h, truthy]
    · simp [infer_step, h, truthy]

/-- C6 (witness): the concrete computation, and the inference step on a
record with no duration at all. -/
theorem claim_C6_witness :
    add_duration_to_date (PyVal.str "2020-01-01") (PyVal.str "P1Y6M") = some "2021-07-01" ∧
    infer_step ([] : Dict) = ([] : Dict) :=
  ⟨claim_C6.1, claim_C6.2 [] (Or.inl rfl)⟩

/-- C7: dates failing validation are coerced to absent before downstream
use (effective_date shown on the final record, end_date on the record the
inference step reads); the end date the pipeline emits is exactly the
inference result when the spec's firing condition holds on the coerced
record — end_date absent, effective_date present and valid, duration
present — and the coerced end_date otherwise; in particular a record
arriving with a valid end_date keeps it unchanged. -/
theorem claim_C7 (d : Dict) :
    dictGet (clean_and_infer d) "effective_date" =
      (if is_valid_date (dictGet d "effective_date") then dictGet d "effective_date"
       else PyVal.none) ∧
    dictGet (cleaned d) "end_date" =
      (if is_valid_date (dictGet d "end_date") then dictGet d "end_date" else PyVal.none) ∧
    dictGet (clean_and_infer d) "end_date" =
      (if infer_condition (cleaned d) then inferred_end (cleaned d)
       else dictGet (cleaned d) "end_date") ∧
    (is_valid_date (dictGet d "end_date") = true →
      dictGet (clean_and_infer d) "end_date" = dictGet d "end_date") := by
  refine ⟨pipeline_eff_eq d, cleaned_get_end d, pipeline_end_eq d, ?_⟩
  intro hv
  rw [pipeline_end_eq d]
  have hend := cleaned_get_end d
  rw [if_pos hv] at hend
  have hvc : is_valid_date (dictGet (cleaned d) "end_date") = true := by
    rw [hend]
    exact hv
  obtain ⟨ht, hn⟩ := is_valid_shape _ hvc
  have hic : infer_condition (cleaned d) = false := by
    simp [infer_condition, hn]
  rw [hic, if_neg (by decide : ¬((false : Bool) = true))]
  exact hend

/-- C7 (witness): a record arriving with the valid end date
`"2020-01-01"` keeps it unchanged through the pipeline. -/
theorem claim_C7_witness :
    dictGet (clean_and_infer dEx) "end_date" = dictGet dEx "end_date" :=
  (claim_C7 dEx).2.2.2 rfl

/-- C8: on every record the pipeline emits, a present (non-absent)
end_date is a syntactically valid `YYYY-MM-DD` calendar date — invalid
strings are normalized to absent, and inferred dates are printed valid. -/
theorem claim_C8 (d : Dict)
    (h : isNone (dictGet (clean_and_infer d) "end_date") = false) :
    is_valid_date (dictGet (clean_and_infer d) "end_date") = true :=
  pipeline_end_valid d h

/-- C8 (witness): the invariant evaluated on a concrete record whose
emitted end_date is present. -/
theorem claim_C8_witness :
    is_valid_date (dictGet (clean_and_infer dEx) "end_date") = true :=
  claim_C8 dEx rfl

/-- C9: for every input list and every `max_workers ≥ 1`, `process_all`
returns exactly the purely sequential in-order map of the per-item body —
independent of `max_workers` — and each `process_contract` call acquires
and releases the semaphore within its own iteration (the permit count it
returns is the one it was given, and it never blocks). -/
theorem claim_C9 (g : Oracle) (cs : List ContractIn) (mw : Nat) (c : ContractIn)
    (sem : Nat) (hmw : 1 ≤ mw) (hsem : 1 ≤ sem) :
    process_all g cs mw = some (sequential_map g cs) ∧
    process_contract g c sem = some (process_contract_body g c, sem) := by
  constructor
  · rw [process_all, process_all_loop_eq g cs mw [] hmw]
    cases sequential_map g cs <;> simp [Except.map]
  · simp only [process_contract]
    rw [if_neg (by omega)]

/-- C9 (witness): the equality at a singleton batch with one permit. -/
theorem claim_C9_witness :
    process_all gOk [cA] 1 = some (sequential_map gOk [cA]) ∧
    process_contract gOk cA 1 = some (process_contract_body gOk cA, 1) :=
  claim_C9 gOk [cA] 1 cA 1 (by decide) (by decide)

/-- C10: `is_valid_date` is total over arbitrary Python values: every
non-string input — `None`, numbers, booleans, lists, dicts — yields
`False` (the bare `except:` swallows the `TypeError`), so the
date-cleaning step never faults on a malformed date field. -/
theorem claim_C10 (v : PyVal) (h : isStr v = false) : is_valid_date v = false := by
  match v with
  | PyVal.str s => simp [isStr] at h
  | PyVal.none => rfl
  | PyVal.bool b => rfl
  | PyVal.num lex => rfl
  | PyVal.list xs => rfl
  | PyVal.dict kvs => rfl

/-- C10 (witness): `is_valid_date` on `None` is `False`. -/
theorem claim_C10_witness : is_valid_date PyVal.none = false :=
  claim_C10 PyVal.none rfl

end LegalDoc
